import Mathlib

/-!
Verification of the `ColumnDef` / `RunSummary` formatting layer of the
InterOp reporting code (`src/bin/column_def.py`, `src/bin/run_summary.py`,
`src/bin/interop_helper.py`; the three `ColumnDef` copies are behaviourally
identical and are embedded once).

Python numerics are idealised as exact arithmetic: a Python `int` is
`PyNum.int : ℤ`, a finite Python `float` is `PyNum.float : ℚ`, and the one
non-finite value the code handles (`float('nan')`) is `PyNum.nan`.  Python's
`round` builtin is round-half-to-even; `round(x, None)` returns the nearest
`int`, `round(x, p)` with an integer `p ≥ 0` returns a `float` with `p`
decimal digits.  `/` is Python true division (always a `float` on finite
operands; the code never divides by zero: every configured scale is `1`,
`1E3` or `1E6`).
-/

section
attribute [local semireducible] Rat.add Rat.sub Rat.mul Rat.inv

/-- Round-half-to-even (banker's rounding) to the nearest integer, the
semantics of Python's `round` builtin, on exact rationals. -/
def rhe (q : ℚ) : ℤ :=
  if q - (⌊q⌋ : ℚ) < 1 / 2 then ⌊q⌋
  else if 1 / 2 < q - (⌊q⌋ : ℚ) then ⌊q⌋ + 1
  else if ⌊q⌋ % 2 = 0 then ⌊q⌋ else ⌊q⌋ + 1

/-- Round-half-to-even at `p` decimal digits: `round(q, p)` on rationals. -/
def roundQ (q : ℚ) (p : ℕ) : ℚ := (rhe (q * 10 ^ p) : ℚ) / 10 ^ p

/-- Python numbers as they flow through `ColumnDef._format`. -/
inductive PyNum where
  | nan : PyNum
  | int : ℤ → PyNum
  | float : ℚ → PyNum
deriving DecidableEq

/-- Python true division `v / scale` (the denominator is a positive rational
in every use in the source). -/
def pyDiv : PyNum → ℚ → PyNum
  | .nan, _ => .nan
  | .int n, s => .float ((n : ℚ) / s)
  | .float q, s => .float (q / s)

/-- The test `math.isnan(value)` (an `int` is never NaN). -/
def pyIsNaN : PyNum → Bool
  | .nan => true
  | _ => false

/-- Python's `round(value, ndigits)`: with `ndigits = None` it returns the
nearest `int` (half-to-even); with an integer `ndigits` a `float` stays a
`float` and an `int` stays itself.  `round` is never reached on NaN in the
source (`_format` guards with `math.isnan`). -/
def pyRound : PyNum → Option ℕ → PyNum
  | .nan, _ => .nan
  | .int n, _ => .int n
  | .float q, none => .int (rhe q)
  | .float q, some p => .float (roundQ q p)

/-- Embedding of `ColumnDef._format`: `value = value / self.scale`; then
`value = round(value, self.precision)` unless `value` is NaN. -/
def formatVal (v : PyNum) (precision : Option ℕ) (scale : ℚ) : PyNum :=
  let d := pyDiv v scale
  if pyIsNaN d then d else pyRound d precision

/-- Numeric content of a `PyNum` (junk value `0` for NaN). -/
def toQ : PyNum → ℚ
  | .nan => 0
  | .int n => (n : ℚ)
  | .float q => q

/-- Decimal digit characters. -/
def digitChar (d : ℕ) : Char :=
  if d = 0 then '0' else if d = 1 then '1' else if d = 2 then '2' else if d = 3 then '3'
  else if d = 4 then '4' else if d = 5 then '5' else if d = 6 then '6' else if d = 7 then '7'
  else if d = 8 then '8' else '9'

/-- Decimal digits of a natural number, most significant first; fuel-driven
so that it is structurally recursive (`n + 1` fuel always suffices). -/
def natCharsAux : ℕ → ℕ → List Char
  | 0, _ => []
  | fuel + 1, n =>
    if n < 10 then [digitChar n]
    else natCharsAux fuel (n / 10) ++ [digitChar (n % 10)]

def natChars (n : ℕ) : List Char := natCharsAux (n + 1) n

/-- Python `str` of an `int`. -/
def intStr (n : ℤ) : String :=
  (if n < 0 then "-" else "") ++ String.mk (natChars n.natAbs)

/-- Absolute value, written explicitly so it evaluates by `decide`. -/
def pabs (q : ℚ) : ℚ := if q < 0 then -q else q

/-- Count of digits after the decimal point in the shortest exact decimal
form of `q` (capped at 60; every value the formatter prints terminates). -/
def fracCount (q : ℚ) : ℕ :=
  ((List.range 61).find? (fun k => (q * 10 ^ k).den == 1)).getD 60

def padLeft (l : List Char) (k : ℕ) : List Char :=
  List.replicate (k + 1 - l.length) '0' ++ l

/-- Python `str` of a finite float, idealised for values with a terminating
decimal expansion (which is every value the formatter prints): shortest
digit string, with at least one digit on each side of the point. -/
def floatStr (q : ℚ) : String :=
  let sign := if q < 0 then "-" else ""
  let a := pabs q
  let k := fracCount a
  if k = 0 then sign ++ String.mk (natChars a.num.natAbs) ++ ".0"
  else
    let ds := padLeft (natChars (a * 10 ^ k).num.natAbs) k
    sign ++ String.mk (ds.take (ds.length - k)) ++ "." ++ String.mk (ds.drop (ds.length - k))

/-- Python `str` of a number, as interpolated by the formatter's f-strings
and `str(...)` calls (`str(float('nan')) = "nan"`). -/
def pyStr : PyNum → String
  | .nan => "nan"
  | .int n => intStr n
  | .float q => floatStr q

/-- Value shapes an InterOp summary-row accessor returns: a plain scalar, a
distribution (`mean()` / `stddev()`), or a cycle-state value whose
`error_cycle_range()` exposes `first_cycle()` / `last_cycle()`. -/
inductive MetricValue where
  | scalar : PyNum → MetricValue
  | dist : PyNum → PyNum → MetricValue
  | cycleState : PyNum → PyNum → MetricValue

/-- A summary row: named accessors.  `none` models `getattr(row, field)`
yielding `None`, the absent-accessor case the code tests for. -/
def RowR := String → Option MetricValue

/-- Result of `get_value_from_row`.  The Python annotation promises `str`,
but the plain-scalar branch and the `first == last` cycle-range branch
return the bare number produced by `_format` (the tests rely on those cells
being numeric in the JSON output). -/
inductive Cell where
  | str : String → Cell
  | num : PyNum → Cell
deriving DecidableEq

/-- Embedding of the `ColumnDef` state set up by `__init__`. -/
structure ColumnDef where
  name : String
  fields : List String
  precision : Option ℕ
  scale : ℚ

/-- Embedding of `ColumnDef.__init__`: a `str` field argument becomes a
singleton list, a list argument is stored as given (unchecked); call sites
that omit the kwargs pass `precision = some 2` and `scale = 1`, the
defaults applied by `kwargs.get`. -/
def ColumnDef.init (name : String) (field : String ⊕ List String)
    (precision : Option ℕ) (scale : ℚ) : ColumnDef :=
  { name := name
    fields :=
      match field with
      | .inl s => [s]
      | .inr l => l
    precision := precision
    scale := scale }

/-- Python `==` on numbers: NaN compares unequal to everything (itself
included); `int` and `float` compare by numeric value. -/
def numEq : PyNum → PyNum → Bool
  | .nan, _ => false
  | _, .nan => false
  | .int a, .int b => a == b
  | .int a, .float q => ((a : ℚ) == q)
  | .float q, .int a => (q == (a : ℚ))
  | .float p, .float q => p == q

/-- Python `' / '.join(values)`. -/
def joinSlash : List String → String
  | [] => ""
  | [s] => s
  | s :: rest => s ++ " / " ++ joinSlash rest

/-- The composite (multi-field) loop of `get_value_from_row`:
`str(self._format(getattr(row, field)().mean()))` for each field.  A `None`
accessor would be called (`TypeError`) and a value without `mean` would
raise `AttributeError`; both are modelled as `Except.error`. -/
def compositeVals (cd : ColumnDef) (row : RowR) : List String → Except String (List String)
  | [] => .ok []
  | f :: rest =>
    match row f with
    | none => .error "TypeError: NoneType object is not callable"
    | some (.dist m _) =>
      match compositeVals cd row rest with
      | .ok tail => .ok (pyStr (formatVal m cd.precision cd.scale) :: tail)
      | .error e => .error e
    | some _ => .error "AttributeError: value has no mean"

/-- Embedding of `ColumnDef.get_value_from_row`. -/
def getValueFromRow (cd : ColumnDef) (row : RowR) : Except String Cell :=
  if cd.fields.length > 1 then
    match compositeVals cd row cd.fields with
    | .ok vs => .ok (.str (joinSlash vs))
    | .error e => .error e
  else
    match cd.fields with
    | [] => .error "IndexError: list index out of range"
    | f :: _ =>
      match row f with
      | none => .ok (.str "N/A")
      | some (.dist m s) =>
        .ok (.str (pyStr (formatVal m cd.precision cd.scale) ++ " +/- "
          ++ pyStr (formatVal s cd.precision cd.scale)))
      | some (.cycleState first last) =>
        if numEq first last then .ok (.num (formatVal first cd.precision cd.scale))
        else .ok (.str (pyStr (formatVal first cd.precision cd.scale) ++ " - "
          ++ pyStr (formatVal last cd.precision cd.scale)))
      | some (.scalar v) => .ok (.num (formatVal v cd.precision cd.scale))

/-- The run-level column configuration `RUN_SUMMARY_COLUMNS`. -/
def RUN_SUMMARY_COLUMNS : List ColumnDef :=
  [ColumnDef.init "Yield Total (G)" (.inl "yield_g") (some 2) 1,
   ColumnDef.init "Projected Yield (G)" (.inl "projected_yield_g") (some 2) 1,
   ColumnDef.init "% Aligned" (.inl "percent_aligned") (some 2) 1,
   ColumnDef.init "Error Rate" (.inl "error_rate") (some 2) 1,
   ColumnDef.init "Intensity C1" (.inl "first_cycle_intensity") none 1,
   ColumnDef.init "% >= Q30" (.inl "percent_gt_q30") (some 2) 1,
   ColumnDef.init "% Occupied" (.inl "percent_occupied") (some 2) 1]

/-- The per-lane column configuration `READ_SUMMARY_COLUMNS`. -/
def READ_SUMMARY_COLUMNS : List ColumnDef :=
  [ColumnDef.init "Lane" (.inl "lane") none 1,
   ColumnDef.init "Tiles" (.inl "tile_count") none 1,
   ColumnDef.init "Density" (.inl "density") none 1000,
   ColumnDef.init "Cluster PF" (.inl "percent_pf") (some 2) 1,
   ColumnDef.init "Legacy Phasing/Prephasing rate" (.inr ["phasing", "prephasing"]) (some 3) 1,
   ColumnDef.init "Phasing Slope/offset" (.inr ["phasing_slope", "phasing_offset"]) (some 3) 1,
   ColumnDef.init "Prephasing Slope/offset"
     (.inr ["prephasing_slope", "prephasing_offset"]) (some 3) 1,
   ColumnDef.init "Reads" (.inl "reads") (some 2) 1000000,
   ColumnDef.init "Reads PF" (.inl "reads_pf") (some 2) 1000000,
   ColumnDef.init "% >= Q30" (.inl "percent_gt_q30") (some 2) 1,
   ColumnDef.init "Yield" (.inl "yield_g") (some 2) 1,
   ColumnDef.init "Cycles Error" (.inl "cycle_state") none 1,
   ColumnDef.init "Aligned" (.inl "percent_aligned") (some 2) 1,
   ColumnDef.init "Error" (.inl "error_rate") (some 2) 1,
   ColumnDef.init "Error (35)" (.inl "error_rate_35") (some 2) 1,
   ColumnDef.init "Error (50)" (.inl "error_rate_50") (some 2) 1,
   ColumnDef.init "Error (100)" (.inl "error_rate_100") (some 2) 1,
   ColumnDef.init "Intensity C1" (.inl "first_cycle_intensity") none 1,
   ColumnDef.init "% Occupied" (.inl "percent_occupied") (some 2) 1]

/-- Sample column over the `cycle_state` accessor (precision `None`, as the
`Cycles Error` column is configured). -/
def cdCycle : ColumnDef := ColumnDef.init "Cycles Error" (.inl "cycle_state") none 1

/-- Sample row whose `cycle_state` value is the degenerate range `5..5`. -/
def rowCycleEq : RowR :=
  fun f => if f = "cycle_state" then some (.cycleState (.int 5) (.int 5)) else none

/-- Sample row whose `cycle_state` value is the range `5..35`. -/
def rowCycleRange : RowR :=
  fun f => if f = "cycle_state" then some (.cycleState (.int 5) (.int 35)) else none

/-- Sample single-field column with the default precision and scale. -/
def cdScalar : ColumnDef := ColumnDef.init "% Occupied" (.inl "percent_occupied") (some 2) 1

/-- Row with no accessors at all. -/
def rowAbsent : RowR := fun _ => none

/-- Sample row carrying a distribution value for `percent_occupied`. -/
def rowDist : RowR :=
  fun f => if f = "percent_occupied" then some (.dist (.float 10) (.float 1)) else none

/-- Sample composite column (the legacy phasing pair). -/
def cdComposite : ColumnDef :=
  ColumnDef.init "Legacy Phasing/Prephasing rate" (.inr ["phasing", "prephasing"]) (some 3) 1

/-- Mean/stddev assignment used with `rowComposite`. -/
def gComposite : String → PyNum × PyNum :=
  fun f => if f = "phasing" then (.float 3, .float 0) else (.float 4, .float 0)

/-- Sample row carrying distribution values for both phasing fields. -/
def rowComposite : RowR :=
  fun f => some (.dist (gComposite f).1 (gComposite f).2)

/-- A `ColumnDef` built from an explicitly empty field list. -/
def cdEmptyFields : ColumnDef := ColumnDef.init "broken" (.inr []) (some 2) 1

/-- Per-read data exposed by the native `run_summary` object: the read's
number and index flag (for the display name), its run-level summary row
`at(i).summary()`, and its per-lane rows `at(i).at(lane)`. -/
structure ReadEntry where
  number : ℤ
  isIndex : Bool
  summaryRow : RowR
  laneRow : ℕ → RowR

/-- State of a loaded `RunSummary`: `summary.size()` reads,
`summary.lane_count()` lanes, the (unvalidated, total) `summary.at(i)`
accessor, and the two aggregate rows `nonindex_summary()` and
`total_summary()`. -/
structure RunData where
  size : ℕ
  atRead : ℕ → ReadEntry
  laneCount : ℕ
  nonindexRow : RowR
  totalRow : RowR

/-- Embedding of `RunSummary._get_read_display_name`: the `(I)` flag comes
before the read number. -/
def displayName (e : ReadEntry) : String :=
  "Read " ++ (if e.isIndex then "(I) " else "") ++ intStr e.number

/-- One output record: every configured column applied to one row, giving
`(column name, value)` pairs in declared column order (the row-major view
of the column-major `pandas` build); a raised exception propagates. -/
def formatRecord (cols : List ColumnDef) (row : RowR) :
    Except String (List (String × Cell)) :=
  match cols with
  | [] => .ok []
  | c :: rest =>
    match getValueFromRow c row, formatRecord rest row with
    | .ok v, .ok t => .ok ((c.name, v) :: t)
    | .error err, _ => .error err
    | .ok _, .error err => .error err

/-- Records of `get_run_summary`: the `Level` label (the `reset_index`
column, first) followed by the run-level columns. -/
def formatLevelRows : List (String × RowR) → Except String (List (List (String × Cell)))
  | [] => .ok []
  | (lbl, row) :: rest =>
    match formatRecord RUN_SUMMARY_COLUMNS row, formatLevelRows rest with
    | .ok r, .ok t => .ok ((("Level", Cell.str lbl) :: r) :: t)
    | .error err, _ => .error err
    | .ok _, .error err => .error err

/-- The row list of `get_run_summary`: one row per read in read order, then
`Non-Indexed Total` and `Total`. -/
def runRows (d : RunData) : List (String × RowR) :=
  (List.range d.size).map (fun i => (displayName (d.atRead i), (d.atRead i).summaryRow))
    ++ [("Non-Indexed Total", d.nonindexRow), ("Total", d.totalRow)]

/-- Embedding of `RunSummary.get_run_summary`, viewed as its
`to_dict('records')` content. -/
def getRunSummary (d : RunData) : Except String (List (List (String × Cell))) :=
  formatLevelRows (runRows d)

/-- Per-lane records for one read. -/
def formatLaneRows (e : ReadEntry) : List ℕ → Except String (List (List (String × Cell)))
  | [] => .ok []
  | lane :: rest =>
    match formatRecord READ_SUMMARY_COLUMNS (e.laneRow lane), formatLaneRows e rest with
    | .ok r, .ok t => .ok (r :: t)
    | .error err, _ => .error err
    | .ok _, .error err => .error err

/-- Embedding of `RunSummary.get_read_summary` on a fresh object (the memo
cache only replays previous results): the two guards, then the rows
`summary.at(read_num).at(lane)` for `lane in range(lane_count)`. -/
def getReadSummary (d : RunData) (readNum : ℤ) :
    Except String (List (List (String × Cell))) :=
  if readNum < 0 then .error "RuntimeError: Read number must be greater or equal to 0"
  else if readNum > (d.size : ℤ) then
    .error "RuntimeError: Read number is greater than available reads"
  else formatLaneRows (d.atRead readNum.toNat) (List.range d.laneCount)

/-- The `reads` array of `get_table_json`: `get_read_summary(read_num)` for
`read_num in range(summary.size())`. -/
def getReadsJson (d : RunData) : List ℕ → Except String (List (List (List (String × Cell))))
  | [] => .ok []
  | i :: rest =>
    match getReadSummary d (i : ℤ), getReadsJson d rest with
    | .ok r, .ok t => .ok (r :: t)
    | .error err, _ => .error err
    | .ok _, .error err => .error err

/-- Whether the whole table build succeeds (no Python exception). -/
def allOk (d : RunData) : Bool :=
  (match getRunSummary d with
   | .ok _ => true
   | .error _ => false)
  && (match getReadsJson d (List.range d.size) with
      | .ok _ => true
      | .error _ => false)

/-- The run-summary records, read off the successful build. -/
def runRecsOf (d : RunData) : List (List (String × Cell)) :=
  match getRunSummary d with
  | .ok r => r
  | .error _ => []

/-- The reads records, read off the successful build. -/
def readsRecsOf (d : RunData) : List (List (List (String × Cell))) :=
  match getReadsJson d (List.range d.size) with
  | .ok r => r
  | .error _ => []

/-- Row giving every accessor a distribution value, so every configured
column formats successfully. -/
def rowAllDist : RowR := fun _ => some (.dist (.float 1) (.float 0))

/-- Sample read entry over `rowAllDist`. -/
def sampleRead : ReadEntry :=
  { number := 1
    isIndex := false
    summaryRow := rowAllDist
    laneRow := fun _ => rowAllDist }

/-- Sample run with two reads and one lane (the shape of the fixture run
used by the repository's tests). -/
def sampleRun : RunData :=
  { size := 2
    atRead := fun _ => sampleRead
    laneCount := 1
    nonindexRow := rowAllDist
    totalRow := rowAllDist }

/-- Python `str.replace('NaN', 'null')`: leftmost, non-overlapping,
exhaustive replacement, specialised to this pattern. -/
def repl : List Char → List Char
  | [] => []
  | [c] => [c]
  | [c, d] => [c, d]
  | c :: d :: e :: rest =>
    if c = 'N' ∧ d = 'a' ∧ e = 'N' then 'n' :: 'u' :: 'l' :: 'l' :: repl rest
    else c :: repl (d :: e :: rest)

/-- Whether the character list contains the substring `NaN`. -/
def hasNaN : List Char → Bool
  | c :: d :: e :: rest =>
    if c = 'N' ∧ d = 'a' ∧ e = 'N' then true else hasNaN (d :: e :: rest)
  | _ => false

/-- A chunk is inert for the replacement: it contains no occurrence of the
two-character seed `Na` and does not end in `N`, so no `NaN` token can lie
inside it or straddle its right edge. -/
def chunkOk : List Char → Bool
  | [] => true
  | [c] => if c = 'N' then false else true
  | c :: d :: rest => if c = 'N' ∧ d = 'a' then false else chunkOk (d :: rest)

/-- The token `json.dumps` emits for one cell value: bare NaN floats print
as `NaN`, numbers print via `repr` (= `str` for the values at hand), and
strings are quoted (the formatter's strings contain nothing JSON escaping
would rewrite). -/
def cellJson : Cell → String
  | .num .nan => "NaN"
  | .num (.int n) => intStr n
  | .num (.float q) => floatStr q
  | .str s => "\"" ++ s ++ "\""

/-- The specification-side cell token: not-a-number emitted directly as the
JSON `null` literal; all other cells as in `cellJson`. -/
def cellJsonNull : Cell → String
  | .num .nan => "null"
  | .num (.int n) => intStr n
  | .num (.float q) => floatStr q
  | .str s => "\"" ++ s ++ "\""

/-- Key/value members of one JSON object, comma-separated. -/
def pairsJson (f : Cell → String) : List (String × Cell) → String
  | [] => ""
  | (k, c) :: rest =>
    "\"" ++ k ++ "\": " ++ f c ++ (if rest.isEmpty then "" else ", ") ++ pairsJson f rest

/-- One record as a JSON object. -/
def recordJson (f : Cell → String) (r : List (String × Cell)) : String :=
  "\x7b" ++ pairsJson f r ++ "\x7d"

/-- Comma-separated JSON array members. -/
def commaJoin : List String → String
  | [] => ""
  | s :: rest => s ++ (if rest.isEmpty then "" else ", ") ++ commaJoin rest

/-- A JSON array. -/
def arrJson (xs : List String) : String := "[" ++ commaJoin xs ++ "]"

/-- Model of `json.dumps(summary_data, indent=2)` up to insignificant
whitespace: `indent` only inserts newlines and spaces, which cannot take
part in a `NaN` token. -/
def dumpJson (f : Cell → String) (run : List (List (String × Cell)))
    (reads : List (List (List (String × Cell)))) : String :=
  "\x7b\"runSummary\": " ++ arrJson (run.map (recordJson f))
    ++ ", \"reads\": " ++ arrJson (reads.map (fun r => arrJson (r.map (recordJson f))))
    ++ "\x7d"

/-- Embedding of `RunSummary.get_table_json`: build both record sets,
serialize (NaN floats printing as `NaN`), then apply
`.replace('NaN', 'null')` to the whole serialized text. -/
def getTableJson (d : RunData) : Except String String :=
  match getRunSummary d, getReadsJson d (List.range d.size) with
  | .ok run, .ok reads => .ok (String.mk (repl (dumpJson cellJson run reads).data))
  | .error err, _ => .error err
  | .ok _, .error err => .error err

/-- The specification-side output: not-a-number cells serialized directly
as JSON `null`, with no textual replacement pass. -/
def getTableJsonNull (d : RunData) : Except String String :=
  match getRunSummary d, getReadsJson d (List.range d.size) with
  | .ok run, .ok reads => .ok (dumpJson cellJsonNull run reads)
  | .error err, _ => .error err
  | .ok _, .error err => .error err

/-- Replacement-transport relation: `x` rewrites to `y` in any right
context, and `y` is clean in any right context. -/
def Trans2 (x y : List Char) : Prop :=
  (∀ b, repl (x ++ b) = y ++ repl b) ∧ (∀ b, hasNaN (y ++ b) = hasNaN b)

/-- Row whose `yield_g` accessor returns a bare NaN scalar and whose other
accessors return distribution values. -/
def rowWithNaN : RowR := fun f =>
  if f = "yield_g" then some (.scalar .nan) else some (.dist (.float 1) (.float 0))

/-- Read entry over `rowWithNaN`. -/
def sampleReadN : ReadEntry :=
  { number := 1
    isIndex := false
    summaryRow := rowWithNaN
    laneRow := fun _ => rowWithNaN }

/-- One-read, one-lane run containing NaN cells. -/
def sampleRunN : RunData :=
  { size := 1
    atRead := fun _ => sampleReadN
    laneCount := 1
    nonindexRow := rowWithNaN
    totalRow := rowWithNaN }

theorem rhe_intCast (k : ℤ) : rhe (k : ℚ) = k := by
  unfold rhe
  simp [Int.floor_intCast]

theorem rhe_add_half (k : ℤ) : rhe ((k : ℚ) + 1 / 2) = if k % 2 = 0 then k else k + 1 := by
  have hfl : ⌊(k : ℚ) + 1 / 2⌋ = k := by
    have h0 : ⌊(1 : ℚ) / 2⌋ = 0 := by
      rw [Int.floor_eq_iff] <;> norm_num
    rw [add_comm, Int.floor_add_int, h0, zero_add]
  unfold rhe
  rw [hfl]
  have hr : (k : ℚ) + 1 / 2 - (k : ℚ) = 1 / 2 := by ring
  rw [hr]
  norm_num

theorem rhe_dist_le_half (q : ℚ) : |q - (rhe q : ℚ)| ≤ 1 / 2 := by
  have hle : (⌊q⌋ : ℚ) ≤ q := Int.floor_le q
  have hlt : q < (⌊q⌋ : ℚ) + 1 := Int.lt_floor_add_one q
  unfold rhe
  split
  · rename_i h
    rw [abs_sub_le_iff]
    refine ⟨by linarith, by linarith⟩
  · rename_i h1
    split
    · rename_i h2
      push_cast
      rw [abs_sub_le_iff]
      refine ⟨by linarith, by linarith⟩
    · rename_i h2
      have heq : q - (⌊q⌋ : ℚ) = 1 / 2 := le_antisymm (not_lt.mp h2) (not_lt.mp h1)
      split
      · rw [abs_sub_le_iff]
        refine ⟨by linarith, by linarith⟩
      · push_cast
        rw [abs_sub_le_iff]
        refine ⟨by linarith, by linarith⟩

/-- Claim C5: for finite `v`, integer `precision ≥ 0` and `scale > 0`,
`_format` returns `round(v / scale, precision)` under round-half-to-even
semantics at exactly `precision` digits; NaN inputs bypass rounding and come
back as NaN regardless of `precision` and `scale`.  The last two conjuncts
pin the half-to-even semantics of the rounding primitive `rhe` that `roundQ`
applies at `precision` digits. -/
theorem claim_C5_format_rounding (v : PyNum) (p : ℕ) (scale : ℚ) (hs : 0 < scale) :
    (v ≠ .nan → formatVal v (some p) scale = .float (roundQ (toQ v / scale) p))
    ∧ (∀ pr : Option ℕ, formatVal .nan pr scale = .nan)
    ∧ (∀ k : ℤ, rhe ((k : ℚ) + 1 / 2) = if k % 2 = 0 then k else k + 1)
    ∧ (∀ q : ℚ, |q - (rhe q : ℚ)| ≤ 1 / 2) := by
  refine ⟨?_, ?_, rhe_add_half, rhe_dist_le_half⟩
  · intro hv
    cases v with
    | nan => exact absurd rfl hv
    | int n => simp [formatVal, pyDiv, pyIsNaN, pyRound, toQ]
    | float q => simp [formatVal, pyDiv, pyIsNaN, pyRound, toQ]
  · intro pr
    simp [formatVal, pyDiv, pyIsNaN]

theorem claim_C5_format_rounding_witness :
    formatVal (.float (47 / 20)) (some 2) 1 = .float (47 / 20)
    ∧ formatVal .nan (some 2) 1 = .nan := by
  constructor
  · have h := (claim_C5_format_rounding (.float (47 / 20)) 2 1 (by norm_num)).1 (by decide)
    rw [h]
    decide
  · exact (claim_C5_format_rounding (.float 0) 2 1 (by norm_num)).2.1 (some 2)

/-- Claim C1 (counterexample): with `precision = None` the code does not
skip rounding: Python `round(value, None)` rounds to the nearest integer.
At `v = 2.5` (exactly representable), `scale = 1`, the result is the int `2`,
not `v / scale = 2.5`. -/
theorem claim_C1_counterexample :
    formatVal (.float (5 / 2)) none 1 = .int 2
    ∧ toQ (formatVal (.float (5 / 2)) none 1) ≠ (5 : ℚ) / 2 / 1 := by
  decide

/-- Claim C1 (amended): with the `None` precision, `_format` still divides by
`scale` and then rounds half-to-even to the nearest integer, returning a
Python `int`; in particular when `v / scale` is integral the result is
exactly `v / scale`, in integral form. -/
theorem claim_C1_amended_none_precision (v : PyNum) (scale : ℚ) (hs : 0 < scale)
    (hv : v ≠ .nan) :
    formatVal v none scale = .int (rhe (toQ v / scale))
    ∧ ∀ k : ℤ, toQ v / scale = (k : ℚ) → formatVal v none scale = .int k := by
  have hmain : formatVal v none scale = .int (rhe (toQ v / scale)) := by
    cases v with
    | nan => exact absurd rfl hv
    | int n => simp [formatVal, pyDiv, pyIsNaN, pyRound, toQ]
    | float q => simp [formatVal, pyDiv, pyIsNaN, pyRound, toQ]
  refine ⟨hmain, fun k hk => ?_⟩
  rw [hmain, hk, rhe_intCast]

theorem claim_C1_amended_none_precision_witness :
    formatVal (.float 3) none 1 = .int 3 := by
  exact (claim_C1_amended_none_precision (.float 3) 1 (by norm_num) (by decide)).2 3
    (by norm_num [toQ])

theorem space_mem_append_mid (a sep b : String) (hs : ' ' ∈ sep.data) :
    ' ' ∈ (a ++ sep ++ b).data := by
  simp only [String.data_append, List.mem_append]
  exact Or.inl (Or.inr hs)

theorem ne_NA_of_space {s : String} (h : ' ' ∈ s.data) : s ≠ "N/A" := by
  intro he
  subst he
  revert h
  decide

theorem joinSlash_cons_cons_space (a b : String) (t : List String) :
    ' ' ∈ (joinSlash (a :: b :: t)).data :=
  space_mem_append_mid a " / " (joinSlash (b :: t)) (by decide)

theorem compositeVals_cons_ok {cd : ColumnDef} {row : RowR} {f : String} {rest : List String}
    {vs : List String} (h : compositeVals cd row (f :: rest) = .ok vs) :
    ∃ v tail, vs = v :: tail ∧ compositeVals cd row rest = .ok tail := by
  rcases hr : row f with _ | mv
  · simp [compositeVals, hr] at h
  · rcases mv with v | ⟨m, s⟩ | ⟨fst, lst⟩
    · simp [compositeVals, hr] at h
    · rcases hc : compositeVals cd row rest with e | tail
      · simp [compositeVals, hr, hc] at h
      · simp [compositeVals, hr, hc] at h
        exact ⟨_, tail, h.symm, rfl⟩
    · simp [compositeVals, hr] at h

theorem compositeVals_all_dist (cd : ColumnDef) (row : RowR) (g : String → PyNum × PyNum) :
    ∀ l : List String, (∀ f ∈ l, row f = some (.dist (g f).1 (g f).2)) →
      compositeVals cd row l
        = .ok (l.map (fun f => pyStr (formatVal (g f).1 cd.precision cd.scale))) := by
  intro l
  induction l with
  | nil => intro _; rfl
  | cons f rest ih =>
    intro hall
    have hf := hall f (by simp)
    have hrest : ∀ x ∈ rest, row x = some (.dist (g x).1 (g x).2) :=
      fun x hx => hall x (by simp [hx])
    simp [compositeVals, hf, ih hrest]

/-- Claim C2: for a single-field `ColumnDef`, an absent accessor (the code's
`value_method is None` test) yields exactly the string `"N/A"`; that is the
only way `get_value_from_row` produces `"N/A"`, so the check belongs to the
single-field path alone (the composite path raises instead). -/
theorem claim_C2_absent_accessor (cd : ColumnDef) (row : RowR) :
    (∀ f, cd.fields = [f] → row f = none → getValueFromRow cd row = .ok (.str "N/A"))
    ∧ (getValueFromRow cd row = .ok (.str "N/A") → ∃ f, cd.fields = [f] ∧ row f = none) := by
  constructor
  · intro f hf hrow
    simp [getValueFromRow, hf, hrow]
  · intro h
    rcases hfs : cd.fields with _ | ⟨f, rest⟩
    · simp [getValueFromRow, hfs] at h
    · rcases rest with _ | ⟨f2, rest2⟩
      · rcases hr : row f with _ | mv
        · exact ⟨f, rfl, hr⟩
        · exfalso
          rcases mv with v | ⟨m, s⟩ | ⟨fst, lst⟩
          · simp [getValueFromRow, hfs, hr] at h
          · simp [getValueFromRow, hfs, hr] at h
            exact ne_NA_of_space (space_mem_append_mid _ " +/- " _ (by decide)) h
          · by_cases he : numEq fst lst
            · simp [getValueFromRow, hfs, hr, he] at h
            · simp [getValueFromRow, hfs, hr, he] at h
              exact ne_NA_of_space (space_mem_append_mid _ " - " _ (by decide)) h
      · exfalso
        unfold getValueFromRow at h
        rw [hfs] at h
        rw [if_pos (by simp only [List.length_cons]; omega)] at h
        rcases hcv : compositeVals cd row (f :: f2 :: rest2) with e | vs
        · rw [hcv] at h
          simp at h
        · rw [hcv] at h
          simp only [Except.ok.injEq, Cell.str.injEq] at h
          obtain ⟨v1, t1, rfl, hc1⟩ := compositeVals_cons_ok hcv
          obtain ⟨v2, t2, rfl, _⟩ := compositeVals_cons_ok hc1
          exact ne_NA_of_space (joinSlash_cons_cons_space v1 v2 t2) h

theorem claim_C2_absent_accessor_witness :
    getValueFromRow cdScalar rowAbsent = .ok (.str "N/A") :=
  (claim_C2_absent_accessor cdScalar rowAbsent).1 "percent_occupied" rfl rfl

/-- Claim C3 (counterexample): on the degenerate cycle range `first = last`
the code returns `self._format(first)` without string interpolation, so the
result is the bare number `5` (`Cell.num`), not the string `"5"`. -/
theorem claim_C3_counterexample :
    getValueFromRow cdCycle rowCycleEq = .ok (.num (.int 5))
    ∧ Cell.num (.int 5) ≠ Cell.str "5" :=
  ⟨rfl, by decide⟩

/-- Claim C3 (amended): for a single-field column over a cycle-range value,
if `first == last` the result is the formatted first bound returned as a
bare number (which displays as `5`); otherwise it is the string
`"<formatted first> - <formatted last>"`, the scale/rounding rule applied to
each bound independently. -/
theorem claim_C3_amended_cycle_range (cd : ColumnDef) (f : String) (row : RowR)
    (fst lst : PyNum) (hf : cd.fields = [f])
    (hrow : row f = some (.cycleState fst lst)) :
    (numEq fst lst = true →
      getValueFromRow cd row = .ok (.num (formatVal fst cd.precision cd.scale)))
    ∧ (numEq fst lst = false →
      getValueFromRow cd row = .ok (.str (pyStr (formatVal fst cd.precision cd.scale)
        ++ " - " ++ pyStr (formatVal lst cd.precision cd.scale)))) := by
  constructor
  · intro h
    simp [getValueFromRow, hf, hrow, h]
  · intro h
    simp [getValueFromRow, hf, hrow, h]

theorem claim_C3_amended_cycle_range_witness :
    getValueFromRow cdCycle rowCycleEq = .ok (.num (.int 5))
    ∧ getValueFromRow cdCycle rowCycleRange = .ok (.str "5 - 35") := by
  constructor
  · exact (claim_C3_amended_cycle_range cdCycle "cycle_state" rowCycleEq
      (.int 5) (.int 5) rfl rfl).1 (by decide)
  · have h := (claim_C3_amended_cycle_range cdCycle "cycle_state" rowCycleRange
      (.int 5) (.int 35) rfl rfl).2 (by decide)
    rw [h]
    rfl

/-- Claim C6 (counterexample): the constructor does not enforce the
invariant: an explicitly empty field list is stored as-is, producing a
`ColumnDef` whose `fields` is empty. -/
theorem claim_C6_counterexample :
    (ColumnDef.init "broken" (.inr []) (some 2) 1).fields = [] := rfl

/-- Claim C6 (amended): a string field argument always yields the singleton
(non-empty) `fields`; every statically configured column has non-empty
`fields`; and formatting a `ColumnDef` whose `fields` is empty fails
fatally (`self.fields[0]` raises `IndexError`) rather than producing a
value. -/
theorem claim_C6_amended_fields_invariant :
    (∀ (nm s : String) (p : Option ℕ) (sc : ℚ), (ColumnDef.init nm (.inl s) p sc).fields ≠ [])
    ∧ (∀ cd ∈ RUN_SUMMARY_COLUMNS ++ READ_SUMMARY_COLUMNS, cd.fields ≠ [])
    ∧ (∀ (cd : ColumnDef) (row : RowR), cd.fields = [] →
        getValueFromRow cd row = .error "IndexError: list index out of range") := by
  refine ⟨?_, ?_, ?_⟩
  · intro nm s p sc
    simp [ColumnDef.init]
  · decide
  · intro cd row h
    simp [getValueFromRow, h]

theorem claim_C6_amended_fields_invariant_witness :
    (ColumnDef.init "Lane" (.inl "lane") none 1).fields ≠ []
    ∧ getValueFromRow cdEmptyFields rowAbsent = .error "IndexError: list index out of range" :=
  ⟨claim_C6_amended_fields_invariant.1 "Lane" "lane" none 1,
   claim_C6_amended_fields_invariant.2.2 cdEmptyFields rowAbsent rfl⟩

/-- Claim C8: a single-field column over a distribution value returns the
formatted mean and the formatted stddev joined by the plus-minus separator,
each half independently run through the scale/rounding rule. -/
theorem claim_C8_distribution (cd : ColumnDef) (f : String) (row : RowR) (m s : PyNum)
    (hf : cd.fields = [f]) (hrow : row f = some (.dist m s)) :
    getValueFromRow cd row = .ok (.str (pyStr (formatVal m cd.precision cd.scale)
      ++ " +/- " ++ pyStr (formatVal s cd.precision cd.scale))) := by
  simp [getValueFromRow, hf, hrow]

theorem claim_C8_distribution_witness :
    getValueFromRow cdScalar rowDist = .ok (.str "10.0 +/- 1.0") := by
  have h := claim_C8_distribution cdScalar "percent_occupied" rowDist
    (.float 10) (.float 1) rfl rfl
  rw [h]
  rfl

/-- Claim C9: a multi-field column maps each field to the formatted mean of
its (distribution) value, stringifies each, and joins them with `" / "` in
field order; the standard deviation is not consulted (the right-hand side
depends only on the means `(g f).1`). -/
theorem claim_C9_composite (cd : ColumnDef) (row : RowR) (g : String → PyNum × PyNum)
    (hlen : 1 < cd.fields.length)
    (hrow : ∀ f ∈ cd.fields, row f = some (.dist (g f).1 (g f).2)) :
    getValueFromRow cd row = .ok (.str (joinSlash (cd.fields.map
      (fun f => pyStr (formatVal (g f).1 cd.precision cd.scale))))) := by
  unfold getValueFromRow
  rw [if_pos hlen, compositeVals_all_dist cd row g cd.fields hrow]

theorem claim_C9_composite_witness :
    getValueFromRow cdComposite rowComposite = .ok (.str "3.0 / 4.0") := by
  have h := claim_C9_composite cdComposite rowComposite gComposite (by decide)
    (fun f _ => rfl)
  rw [h]
  rfl

theorem formatRecord_keys {cols : List ColumnDef} {row : RowR} {r : List (String × Cell)}
    (h : formatRecord cols row = .ok r) : r.map Prod.fst = cols.map ColumnDef.name := by
  induction cols generalizing r with
  | nil =>
    simp [formatRecord] at h
    subst h
    rfl
  | cons c rest ih =>
    rcases hv : getValueFromRow c row with err | v
    · simp [formatRecord, hv] at h
    · rcases ht : formatRecord rest row with err | t
      · simp [formatRecord, hv, ht] at h
      · simp [formatRecord, hv, ht] at h
        subst h
        simp [ih ht]

theorem formatLevelRows_shape :
    ∀ (rows : List (String × RowR)) (recs : List (List (String × Cell))),
      formatLevelRows rows = .ok recs →
      recs.length = rows.length
      ∧ (∀ r ∈ recs, r.map Prod.fst = "Level" :: RUN_SUMMARY_COLUMNS.map ColumnDef.name)
      ∧ recs.map (fun r => r.head?) = rows.map (fun p => some ("Level", Cell.str p.1)) := by
  intro rows
  induction rows with
  | nil =>
    intro recs h
    simp [formatLevelRows] at h
    subst h
    simp
  | cons p rest ih =>
    intro recs h
    rcases hv : formatRecord RUN_SUMMARY_COLUMNS p.2 with err | r
    · rw [formatLevelRows, hv] at h
      simp at h
    · rcases ht : formatLevelRows rest with err | t
      · rw [formatLevelRows, hv, ht] at h
        simp at h
      · rw [formatLevelRows, hv, ht] at h
        simp only [Except.ok.injEq] at h
        subst h
        obtain ⟨hl, hk, hh⟩ := ih t ht
        refine ⟨by simp [hl], ?_, by simp [hh]⟩
        intro x hx
        rcases List.mem_cons.mp hx with hx | hx
        · subst hx
          simp [formatRecord_keys hv]
        · exact hk x hx

theorem formatLaneRows_shape (e : ReadEntry) :
    ∀ (lanes : List ℕ) (recs : List (List (String × Cell))),
      formatLaneRows e lanes = .ok recs →
      recs.length = lanes.length
      ∧ ∀ r ∈ recs, r.map Prod.fst = READ_SUMMARY_COLUMNS.map ColumnDef.name := by
  intro lanes
  induction lanes with
  | nil =>
    intro recs h
    simp [formatLaneRows] at h
    subst h
    simp
  | cons lane rest ih =>
    intro recs h
    rcases hv : formatRecord READ_SUMMARY_COLUMNS (e.laneRow lane) with err | r
    · rw [formatLaneRows, hv] at h
      simp at h
    · rcases ht : formatLaneRows e rest with err | t
      · rw [formatLaneRows, hv, ht] at h
        simp at h
      · rw [formatLaneRows, hv, ht] at h
        simp only [Except.ok.injEq] at h
        subst h
        obtain ⟨hl, hk⟩ := ih t ht
        refine ⟨by simp [hl], ?_⟩
        intro x hx
        rcases List.mem_cons.mp hx with hx | hx
        · subst hx
          exact formatRecord_keys hv
        · exact hk x hx

theorem getReadsJson_shape (d : RunData) :
    ∀ (idx : List ℕ) (out : List (List (List (String × Cell)))),
      getReadsJson d idx = .ok out →
      out.length = idx.length
      ∧ ∀ r ∈ out, ∃ i ∈ idx, getReadSummary d (i : ℤ) = .ok r := by
  intro idx
  induction idx with
  | nil =>
    intro out h
    simp [getReadsJson] at h
    subst h
    simp
  | cons i rest ih =>
    intro out h
    rcases hv : getReadSummary d (i : ℤ) with err | r
    · rw [getReadsJson, hv] at h
      simp at h
    · rcases ht : getReadsJson d rest with err | t
      · rw [getReadsJson, hv, ht] at h
        simp at h
      · rw [getReadsJson, hv, ht] at h
        simp only [Except.ok.injEq] at h
        subst h
        obtain ⟨hl, hm⟩ := ih t ht
        refine ⟨by simp [hl], ?_⟩
        intro x hx
        rcases List.mem_cons.mp hx with hx | hx
        · subst hx
          exact ⟨i, by simp, hv⟩
        · obtain ⟨j, hj, hjr⟩ := hm x hx
          exact ⟨j, by simp [hj], hjr⟩

/-- Claim C7: `get_read_summary` raises `RuntimeError` for a negative
`read_num` and for `read_num` strictly greater than the number of reads;
`read_num = size` (itself out of range, valid reads being `0..size-1`)
passes both guards and is handed to the underlying `summary.at` accessor
unvalidated. -/
theorem claim_C7_read_summary_guards (d : RunData) (readNum : ℤ) :
    (readNum < 0 →
      getReadSummary d readNum
        = .error "RuntimeError: Read number must be greater or equal to 0")
    ∧ ((d.size : ℤ) < readNum →
      getReadSummary d readNum
        = .error "RuntimeError: Read number is greater than available reads")
    ∧ (readNum = (d.size : ℤ) →
      getReadSummary d readNum = formatLaneRows (d.atRead d.size) (List.range d.laneCount)) := by
  refine ⟨?_, ?_, ?_⟩
  · intro h
    simp [getReadSummary, h]
  · intro h
    rw [getReadSummary, if_neg (by omega), if_pos h]
  · intro h
    subst h
    rw [getReadSummary, if_neg (by omega), if_neg (by omega)]
    simp

theorem claim_C7_read_summary_guards_witness :
    getReadSummary sampleRun (-1)
      = .error "RuntimeError: Read number must be greater or equal to 0"
    ∧ getReadSummary sampleRun 3
      = .error "RuntimeError: Read number is greater than available reads"
    ∧ getReadSummary sampleRun 2
      = formatLaneRows (sampleRun.atRead 2) (List.range 1) :=
  ⟨(claim_C7_read_summary_guards sampleRun (-1)).1 (by decide),
   (claim_C7_read_summary_guards sampleRun 3).2.1 (by decide),
   (claim_C7_read_summary_guards sampleRun 2).2.2 (by decide)⟩

/-- Claim C10: for a run with `n` reads and `m` lanes, the run summary has
exactly `n + 2` records: one per read in read order, then the
`Non-Indexed Total` and `Total` rows (visible in the `Level` head of each
record), every record's keys follow the declared column order with `Level`
first; and the `reads` value has exactly `n` entries, each with exactly `m`
records whose keys follow the declared read-column order. -/
theorem claim_C10_table_shape (d : RunData) (h : allOk d = true) :
    getRunSummary d = .ok (runRecsOf d)
    ∧ (runRecsOf d).length = d.size + 2
    ∧ (∀ r ∈ runRecsOf d, r.map Prod.fst = "Level" :: RUN_SUMMARY_COLUMNS.map ColumnDef.name)
    ∧ (runRecsOf d).map (fun r => r.head?)
        = (List.range d.size).map
            (fun i => some ("Level", Cell.str (displayName (d.atRead i))))
          ++ [some ("Level", Cell.str "Non-Indexed Total"), some ("Level", Cell.str "Total")]
    ∧ getReadsJson d (List.range d.size) = .ok (readsRecsOf d)
    ∧ (readsRecsOf d).length = d.size
    ∧ ∀ r ∈ readsRecsOf d, r.length = d.laneCount
        ∧ ∀ q ∈ r, q.map Prod.fst = READ_SUMMARY_COLUMNS.map ColumnDef.name := by
  rcases hr : getRunSummary d with err | runRecs
  · rw [allOk, hr] at h
    simp at h
  · rcases hj : getReadsJson d (List.range d.size) with err | readsRecs
    · rw [allOk, hr, hj] at h
      simp at h
    · have hrun : runRecsOf d = runRecs := by rw [runRecsOf, hr]
      have hreads : readsRecsOf d = readsRecs := by rw [readsRecsOf, hj]
      obtain ⟨hl, hk, hh⟩ := formatLevelRows_shape (runRows d) runRecs hr
      obtain ⟨hjl, hjm⟩ := getReadsJson_shape d (List.range d.size) readsRecs hj
      refine ⟨by rw [hrun], ?_, ?_, ?_, by rw [hreads], ?_, ?_⟩
      · rw [hrun, hl]
        simp [runRows]
      · intro r hrm
        rw [hrun] at hrm
        exact hk r hrm
      · rw [hrun, hh]
        simp [runRows]
      · rw [hreads, hjl]
        simp
      · intro r hrm
        rw [hreads] at hrm
        obtain ⟨i, hi, hir⟩ := hjm r hrm
        have hi' : i < d.size := List.mem_range.mp hi
        rw [getReadSummary, if_neg (by omega), if_neg (by omega)] at hir
        obtain ⟨hlen, hkeys⟩ := formatLaneRows_shape (d.atRead (i : ℤ).toNat)
          (List.range d.laneCount) r hir
        refine ⟨by rw [hlen]; simp, hkeys⟩

theorem claim_C10_table_shape_witness :
    allOk sampleRun = true
    ∧ (runRecsOf sampleRun).length = 4
    ∧ (readsRecsOf sampleRun).length = 2 := by
  have h := claim_C10_table_shape sampleRun (by decide)
  exact ⟨by decide, h.2.1.trans rfl, h.2.2.2.2.2.1.trans rfl⟩

theorem repl_cons_of (c : Char) (l : List Char)
    (h : ∀ d e t, l = d :: e :: t → ¬(c = 'N' ∧ d = 'a' ∧ e = 'N')) :
    repl (c :: l) = c :: repl l := by
  rcases l with _ | ⟨d, l'⟩
  · rfl
  · rcases l' with _ | ⟨e, t⟩
    · rfl
    · simp only [repl]
      rw [if_neg (h d e t rfl)]

theorem hasNaN_cons_of (c : Char) (l : List Char)
    (h : ∀ d e t, l = d :: e :: t → ¬(c = 'N' ∧ d = 'a' ∧ e = 'N')) :
    hasNaN (c :: l) = hasNaN l := by
  rcases l with _ | ⟨d, l'⟩
  · rfl
  · rcases l' with _ | ⟨e, t⟩
    · rfl
    · simp only [hasNaN]
      rw [if_neg (h d e t rfl)]

theorem chunkOk_cons {c : Char} {l : List Char} (h : chunkOk (c :: l) = true) :
    chunkOk l = true := by
  rcases l with _ | ⟨d, t⟩
  · rfl
  · by_cases hcd : c = 'N' ∧ d = 'a'
    · simp [chunkOk, hcd] at h
    · simp only [chunkOk] at h
      rw [if_neg hcd] at h
      exact h

theorem chunkOk_head_one {c : Char} (h : chunkOk [c] = true) : c ≠ 'N' := by
  intro hc
  subst hc
  simp [chunkOk] at h

theorem chunkOk_head_two {c d : Char} {t : List Char} (h : chunkOk (c :: d :: t) = true) :
    ¬(c = 'N' ∧ d = 'a') := by
  intro hcd
  simp [chunkOk, hcd] at h

theorem chunkOk_append (a b : List Char) (h : chunkOk a = true) :
    repl (a ++ b) = a ++ repl b ∧ hasNaN (a ++ b) = hasNaN b := by
  induction a with
  | nil => simp
  | cons c a' ih =>
    have h' : chunkOk a' = true := chunkOk_cons h
    have hstep : ∀ d e t, a' ++ b = d :: e :: t → ¬(c = 'N' ∧ d = 'a' ∧ e = 'N') := by
      intro d e t hl hc
      rcases a' with _ | ⟨x, t'⟩
      · exact chunkOk_head_one h hc.1
      · have hl' : x :: (t' ++ b) = d :: e :: t := hl
        injection hl' with h1 h2
        subst h1
        exact chunkOk_head_two h ⟨hc.1, hc.2.1⟩
    have e1 : repl ((c :: a') ++ b) = c :: repl (a' ++ b) := by
      rw [show (c :: a') ++ b = c :: (a' ++ b) from rfl, repl_cons_of c (a' ++ b) hstep]
    have e2 : hasNaN ((c :: a') ++ b) = hasNaN (a' ++ b) := by
      rw [show (c :: a') ++ b = c :: (a' ++ b) from rfl, hasNaN_cons_of c (a' ++ b) hstep]
    obtain ⟨ih1, ih2⟩ := ih h'
    constructor
    · rw [e1, ih1]
      rfl
    · rw [e2, ih2]

theorem trans2_ok {x : List Char} (h : chunkOk x = true) : Trans2 x x :=
  ⟨fun b => (chunkOk_append x b h).1, fun b => (chunkOk_append x b h).2⟩

theorem trans2_append {x₁ y₁ x₂ y₂ : List Char} (h₁ : Trans2 x₁ y₁) (h₂ : Trans2 x₂ y₂) :
    Trans2 (x₁ ++ x₂) (y₁ ++ y₂) := by
  constructor
  · intro b
    rw [List.append_assoc, h₁.1 (x₂ ++ b), h₂.1 b, List.append_assoc]
  · intro b
    rw [List.append_assoc, h₁.2 (y₂ ++ b), h₂.2 b]

theorem trans2_nan : Trans2 "NaN".data "null".data := by
  constructor
  · intro b
    show repl ('N' :: 'a' :: 'N' :: b) = 'n' :: 'u' :: 'l' :: 'l' :: repl b
    simp [repl]
  · intro b
    exact (chunkOk_append "null".data b (by decide)).2

theorem trans2_conclude {x y : List Char} (h : Trans2 x y) :
    repl x = y ∧ hasNaN y = false := by
  constructor
  · have h1 := h.1 []
    rw [List.append_nil, show repl [] = [] from rfl, List.append_nil] at h1
    exact h1
  · have h2 := h.2 []
    rw [List.append_nil, show hasNaN [] = false from rfl] at h2
    exact h2

theorem digitChar_ne_N (d : ℕ) : digitChar d ≠ 'N' := by
  unfold digitChar
  repeat' split
  all_goals decide

theorem natCharsAux_ne_N : ∀ fuel n, 'N' ∉ natCharsAux fuel n := by
  intro fuel
  induction fuel with
  | zero =>
    intro n
    simp [natCharsAux]
  | succ fuel ih =>
    intro n
    by_cases h : n < 10
    · simp only [natCharsAux, if_pos h, List.mem_singleton]
      exact fun hc => digitChar_ne_N n hc.symm
    · simp only [natCharsAux, if_neg h, List.mem_append, List.mem_singleton]
      rintro (hc | hc)
      · exact ih (n / 10) hc
      · exact digitChar_ne_N (n % 10) hc.symm

theorem natChars_ne_N (n : ℕ) : 'N' ∉ natChars n := natCharsAux_ne_N (n + 1) n

theorem intStr_ne_N (n : ℤ) : 'N' ∉ (intStr n).data := by
  unfold intStr
  rw [String.data_append]
  rintro hmem
  rcases List.mem_append.mp hmem with hc | hc
  · by_cases hn : n < 0
    · rw [if_pos hn] at hc
      revert hc
      decide
    · rw [if_neg hn] at hc
      revert hc
      decide
  · exact natChars_ne_N n.natAbs hc

theorem floatStr_ne_N (q : ℚ) : 'N' ∉ (floatStr q).data := by
  unfold floatStr
  by_cases hk : fracCount (pabs q) = 0
  · rw [if_pos hk]
    intro hmem
    rw [String.data_append, String.data_append] at hmem
    rcases List.mem_append.mp hmem with hc | hc
    · rcases List.mem_append.mp hc with hc | hc
      · by_cases hq : q < 0
        · rw [if_pos hq] at hc
          revert hc
          decide
        · rw [if_neg hq] at hc
          revert hc
          decide
      · exact natChars_ne_N _ hc
    · revert hc
      decide
  · rw [if_neg hk]
    intro hmem
    rw [String.data_append, String.data_append, String.data_append] at hmem
    rcases List.mem_append.mp hmem with hc | hc
    · rcases List.mem_append.mp hc with hc | hc
      · rcases List.mem_append.mp hc with hc | hc
        · by_cases hq : q < 0
          · rw [if_pos hq] at hc
            revert hc
            decide
          · rw [if_neg hq] at hc
            revert hc
            decide
        · have hsub := List.take_subset _ _ hc
          have hc2 : 'N' ∈ natChars (pabs q * 10 ^ fracCount (pabs q)).num.natAbs := by
            simpa [padLeft] using hsub
          exact natChars_ne_N _ hc2
      · revert hc
        decide
    · have hsub := List.drop_subset _ _ hc
      have hc2 : 'N' ∈ natChars (pabs q * 10 ^ fracCount (pabs q)).num.natAbs := by
        simpa [padLeft] using hsub
      exact natChars_ne_N _ hc2

theorem pyStr_ne_N (v : PyNum) : 'N' ∉ (pyStr v).data := by
  cases v with
  | nan => decide
  | int n => exact intStr_ne_N n
  | float q => exact floatStr_ne_N q

theorem noN_chunkOk : ∀ l : List Char, 'N' ∉ l → chunkOk l = true := by
  intro l
  induction l with
  | nil => intro _; rfl
  | cons c l' ih =>
    intro h
    have hc : c ≠ 'N' := fun hc => h (by simp [hc])
    have h' : 'N' ∉ l' := fun hm => h (by simp [hm])
    rcases l' with _ | ⟨d, t⟩
    · simp [chunkOk, hc]
    · simp only [chunkOk]
      rw [if_neg (fun hcd => hc hcd.1)]
      exact ih h'

theorem compositeVals_ok_pyStr {cd : ColumnDef} {row : RowR} :
    ∀ {l : List String} {vs : List String}, compositeVals cd row l = .ok vs →
      ∀ x ∈ vs, ∃ v, x = pyStr v := by
  intro l
  induction l with
  | nil =>
    intro vs h
    simp [compositeVals] at h
    subst h
    simp
  | cons f rest ih =>
    intro vs h
    rcases hr : row f with _ | mv
    · simp [compositeVals, hr] at h
    · rcases mv with v | ⟨m, s⟩ | ⟨fst, lst⟩
      · simp [compositeVals, hr] at h
      · rcases hc : compositeVals cd row rest with err | tail
        · simp [compositeVals, hr, hc] at h
        · simp [compositeVals, hr, hc] at h
          subst h
          intro x hx
          rcases List.mem_cons.mp hx with hx | hx
          · exact ⟨_, hx⟩
          · exact ih hc x hx
      · simp [compositeVals, hr] at h

theorem joinSlash_ne_N : ∀ vs : List String, (∀ s ∈ vs, 'N' ∉ s.data) →
    'N' ∉ (joinSlash vs).data := by
  intro vs
  induction vs with
  | nil =>
    intro _
    decide
  | cons s rest ih =>
    intro h
    rcases rest with _ | ⟨s2, t⟩
    · exact h s (by simp)
    · have hs := h s (by simp)
      have ih' := ih (fun x hx => h x (by simp [hx]))
      have he : joinSlash (s :: s2 :: t) = s ++ " / " ++ joinSlash (s2 :: t) := rfl
      rw [he, String.data_append, String.data_append]
      intro hmem
      rcases List.mem_append.mp hmem with hc | hc
      · rcases List.mem_append.mp hc with hc | hc
        · exact hs hc
        · revert hc
          decide
      · exact ih' hc

/-- Shapes of a successfully formatted cell: the `"N/A"` marker, a bare
number, or a string assembled from number renderings and separators (hence
free of the character `N`). -/
theorem gv_cell_classify {cd : ColumnDef} {row : RowR} {c : Cell}
    (h : getValueFromRow cd row = .ok c) :
    c = .str "N/A" ∨ (∃ v, c = .num v) ∨ (∃ s, c = .str s ∧ 'N' ∉ s.data) := by
  by_cases hlen : cd.fields.length > 1
  · unfold getValueFromRow at h
    rw [if_pos hlen] at h
    rcases hcv : compositeVals cd row cd.fields with err | vs
    · rw [hcv] at h
      simp at h
    · rw [hcv] at h
      simp only [Except.ok.injEq] at h
      refine Or.inr (Or.inr ⟨joinSlash vs, h.symm, ?_⟩)
      refine joinSlash_ne_N vs ?_
      intro x hx
      obtain ⟨v, rfl⟩ := compositeVals_ok_pyStr hcv x hx
      exact pyStr_ne_N v
  · rcases hfs : cd.fields with _ | ⟨f, rest⟩
    · simp [getValueFromRow, hfs] at h
    · rcases rest with _ | ⟨f2, rest2⟩
      · rcases hr : row f with _ | mv
        · simp [getValueFromRow, hfs, hr] at h
          exact Or.inl h.symm
        · rcases mv with v | ⟨m, s⟩ | ⟨fst, lst⟩
          · simp [getValueFromRow, hfs, hr] at h
            exact Or.inr (Or.inl ⟨_, h.symm⟩)
          · simp [getValueFromRow, hfs, hr] at h
            refine Or.inr (Or.inr ⟨_, h.symm, ?_⟩)
            rw [String.data_append, String.data_append]
            intro hmem
            rcases List.mem_append.mp hmem with hc | hc
            · rcases List.mem_append.mp hc with hc | hc
              · exact pyStr_ne_N _ hc
              · revert hc
                decide
            · exact pyStr_ne_N _ hc
          · by_cases he : numEq fst lst
            · simp [getValueFromRow, hfs, hr, he] at h
              exact Or.inr (Or.inl ⟨_, h.symm⟩)
            · simp [getValueFromRow, hfs, hr, he] at h
              refine Or.inr (Or.inr ⟨_, h.symm, ?_⟩)
              rw [String.data_append, String.data_append]
              intro hmem
              rcases List.mem_append.mp hmem with hc | hc
              · rcases List.mem_append.mp hc with hc | hc
                · exact pyStr_ne_N _ hc
                · revert hc
                  decide
              · exact pyStr_ne_N _ hc
      · exfalso
        apply hlen
        rw [hfs]
        simp only [List.length_cons]
        omega

theorem quoted_chunkOk {s : String} (hs : 'N' ∉ s.data) :
    chunkOk ("\"" ++ s ++ "\"").data = true := by
  apply noN_chunkOk
  rw [String.data_append, String.data_append]
  intro hmem
  rcases List.mem_append.mp hmem with hc | hc
  · rcases List.mem_append.mp hc with hc | hc
    · revert hc
      decide
    · exact hs hc
  · revert hc
    decide

/-- Every successfully formatted cell rewrites, under the NaN replacement,
to its direct-null serialization. -/
theorem trans2_cell {cd : ColumnDef} {row : RowR} {c : Cell}
    (h : getValueFromRow cd row = .ok c) :
    Trans2 (cellJson c).data (cellJsonNull c).data := by
  rcases gv_cell_classify h with hC | ⟨v, hC⟩ | ⟨s, hC, hs⟩
  · subst hC
    exact trans2_ok (by decide)
  · subst hC
    cases v with
    | nan => exact trans2_nan
    | int n => exact trans2_ok (noN_chunkOk _ (intStr_ne_N n))
    | float q => exact trans2_ok (noN_chunkOk _ (floatStr_ne_N q))
  · subst hC
    exact trans2_ok (quoted_chunkOk hs)

theorem keys_ok :
    ∀ k ∈ "Level" :: (RUN_SUMMARY_COLUMNS ++ READ_SUMMARY_COLUMNS).map ColumnDef.name,
      chunkOk ("\"" ++ k ++ "\": ").data = true := by
  decide

theorem displayName_ne_N (e : ReadEntry) : 'N' ∉ (displayName e).data := by
  unfold displayName
  rw [String.data_append, String.data_append]
  intro hmem
  rcases List.mem_append.mp hmem with hc | hc
  · rcases List.mem_append.mp hc with hc | hc
    · revert hc
      decide
    · by_cases hi : e.isIndex
      · rw [if_pos hi] at hc
        revert hc
        decide
      · rw [if_neg hi] at hc
        revert hc
        decide
  · exact intStr_ne_N _ hc

theorem runRows_labels_ok (d : RunData) :
    ∀ p ∈ runRows d, chunkOk ("\"" ++ p.1 ++ "\"").data = true := by
  intro p hp
  unfold runRows at hp
  rcases List.mem_append.mp hp with hp | hp
  · obtain ⟨i, _, rfl⟩ := List.mem_map.mp hp
    exact quoted_chunkOk (displayName_ne_N _)
  · simp only [List.mem_cons, List.mem_singleton, List.not_mem_nil, or_false] at hp
    rcases hp with rfl | rfl
    · show chunkOk ("\"" ++ "Non-Indexed Total" ++ "\"").data = true
      decide
    · show chunkOk ("\"" ++ "Total" ++ "\"").data = true
      decide

theorem formatRecord_cells {cols : List ColumnDef} {row : RowR} :
    ∀ {r : List (String × Cell)}, formatRecord cols row = .ok r →
      ∀ p ∈ r, Trans2 (cellJson p.2).data (cellJsonNull p.2).data := by
  induction cols with
  | nil =>
    intro r h
    simp [formatRecord] at h
    subst h
    simp
  | cons c rest ih =>
    intro r h
    rcases hv : getValueFromRow c row with err | v
    · simp [formatRecord, hv] at h
    · rcases ht : formatRecord rest row with err | t
      · simp [formatRecord, hv, ht] at h
      · simp [formatRecord, hv, ht] at h
        subst h
        intro p hp
        rcases List.mem_cons.mp hp with hp | hp
        · subst hp
          exact trans2_cell hv
        · exact ih ht p hp

theorem formatLevelRows_cells :
    ∀ {rows : List (String × RowR)} {recs : List (List (String × Cell))},
      formatLevelRows rows = .ok recs →
      (∀ p ∈ rows, chunkOk ("\"" ++ p.1 ++ "\"").data = true) →
      ∀ r ∈ recs, ∀ p ∈ r, Trans2 (cellJson p.2).data (cellJsonNull p.2).data := by
  intro rows
  induction rows with
  | nil =>
    intro recs h _
    simp [formatLevelRows] at h
    subst h
    simp
  | cons pr rest ih =>
    intro recs h hlbl
    rcases hv : formatRecord RUN_SUMMARY_COLUMNS pr.2 with err | r0
    · rw [formatLevelRows, hv] at h
      simp at h
    · rcases ht : formatLevelRows rest with err | t
      · rw [formatLevelRows, hv, ht] at h
        simp at h
      · rw [formatLevelRows, hv, ht] at h
        simp only [Except.ok.injEq] at h
        subst h
        intro r hr p hp
        rcases List.mem_cons.mp hr with hr | hr
        · subst hr
          rcases List.mem_cons.mp hp with hp | hp
          · subst hp
            exact trans2_ok (hlbl pr (by simp))
          · exact formatRecord_cells hv p hp
        · exact ih ht (fun q hq => hlbl q (by simp [hq])) r hr p hp

theorem formatLaneRows_cells {e : ReadEntry} :
    ∀ {lanes : List ℕ} {recs : List (List (String × Cell))},
      formatLaneRows e lanes = .ok recs →
      ∀ r ∈ recs, ∀ p ∈ r, Trans2 (cellJson p.2).data (cellJsonNull p.2).data := by
  intro lanes
  induction lanes with
  | nil =>
    intro recs h
    simp [formatLaneRows] at h
    subst h
    simp
  | cons lane rest ih =>
    intro recs h
    rcases hv : formatRecord READ_SUMMARY_COLUMNS (e.laneRow lane) with err | r0
    · rw [formatLaneRows, hv] at h
      simp at h
    · rcases ht : formatLaneRows e rest with err | t
      · rw [formatLaneRows, hv, ht] at h
        simp at h
      · rw [formatLaneRows, hv, ht] at h
        simp only [Except.ok.injEq] at h
        subst h
        intro r hr p hp
        rcases List.mem_cons.mp hr with hr | hr
        · subst hr
          exact formatRecord_cells hv p hp
        · exact ih ht r hr p hp

theorem key_of_mem {r : List (String × Cell)} {keys : List String}
    (hmap : r.map Prod.fst = keys) {p : String × Cell} (hp : p ∈ r) : p.1 ∈ keys := by
  subst hmap
  exact List.mem_map_of_mem Prod.fst hp

theorem trans2_pairs :
    ∀ r : List (String × Cell),
      (∀ p ∈ r, chunkOk ("\"" ++ p.1 ++ "\": ").data = true) →
      (∀ p ∈ r, Trans2 (cellJson p.2).data (cellJsonNull p.2).data) →
      Trans2 (pairsJson cellJson r).data (pairsJson cellJsonNull r).data := by
  intro r
  induction r with
  | nil =>
    intro _ _
    exact trans2_ok (show chunkOk ("" : String).data = true by decide)
  | cons p rest ih =>
    intro hk hc
    obtain ⟨k, c⟩ := p
    have hk1 := hk (k, c) (by simp)
    have hc1 := hc (k, c) (by simp)
    have ihh := ih (fun q hq => hk q (by simp [hq])) (fun q hq => hc q (by simp [hq]))
    have hsep : chunkOk (if rest.isEmpty then "" else ", " : String).data = true := by
      rcases rest with _ | ⟨q, t⟩
      · show chunkOk ("" : String).data = true
        decide
      · show chunkOk (", " : String).data = true
        decide
    have hmain := trans2_append (trans2_ok hk1)
      (trans2_append hc1 (trans2_append (trans2_ok hsep) ihh))
    have e1 : pairsJson cellJson ((k, c) :: rest)
        = "\"" ++ k ++ "\": " ++ cellJson c ++ (if rest.isEmpty then "" else ", ")
          ++ pairsJson cellJson rest := rfl
    have e2 : pairsJson cellJsonNull ((k, c) :: rest)
        = "\"" ++ k ++ "\": " ++ cellJsonNull c ++ (if rest.isEmpty then "" else ", ")
          ++ pairsJson cellJsonNull rest := rfl
    rw [e1, e2]
    simp only [String.data_append, List.append_assoc] at hmain ⊢
    exact hmain

theorem trans2_record {r : List (String × Cell)}
    (hk : ∀ p ∈ r, chunkOk ("\"" ++ p.1 ++ "\": ").data = true)
    (hc : ∀ p ∈ r, Trans2 (cellJson p.2).data (cellJsonNull p.2).data) :
    Trans2 (recordJson cellJson r).data (recordJson cellJsonNull r).data := by
  have hp := trans2_pairs r hk hc
  have hmain := trans2_append (trans2_ok (show chunkOk ("\x7b" : String).data = true by decide))
    (trans2_append hp (trans2_ok (show chunkOk ("\x7d" : String).data = true by decide)))
  unfold recordJson
  simp only [String.data_append, List.append_assoc] at hmain ⊢
  exact hmain

theorem trans2_commaJoin {α : Type} (l : List α) (f g : α → String)
    (h : ∀ x ∈ l, Trans2 (f x).data (g x).data) :
    Trans2 (commaJoin (l.map f)).data (commaJoin (l.map g)).data := by
  induction l with
  | nil => exact trans2_ok (show chunkOk ("" : String).data = true by decide)
  | cons x rest ih =>
    have hx := h x (by simp)
    have ihh := ih (fun y hy => h y (by simp [hy]))
    have hsep : chunkOk (if (rest.map f).isEmpty then "" else ", " : String).data = true := by
      rcases rest with _ | ⟨y, t⟩
      · show chunkOk ("" : String).data = true
        decide
      · show chunkOk (", " : String).data = true
        decide
    have hsep2 : (if (rest.map f).isEmpty then "" else ", " : String)
        = (if (rest.map g).isEmpty then "" else ", " : String) := by
      rcases rest with _ | _ <;> rfl
    have hmain := trans2_append hx (trans2_append (trans2_ok hsep) ihh)
    have e1 : commaJoin (List.map f (x :: rest))
        = f x ++ (if (rest.map f).isEmpty then "" else ", ") ++ commaJoin (rest.map f) := rfl
    have e2 : commaJoin (List.map g (x :: rest))
        = g x ++ (if (rest.map g).isEmpty then "" else ", ") ++ commaJoin (rest.map g) := rfl
    rw [e1, e2, ← hsep2]
    simp only [String.data_append, List.append_assoc] at hmain ⊢
    exact hmain

theorem trans2_arrJson {α : Type} (l : List α) (f g : α → String)
    (h : ∀ x ∈ l, Trans2 (f x).data (g x).data) :
    Trans2 (arrJson (l.map f)).data (arrJson (l.map g)).data := by
  have hc := trans2_commaJoin l f g h
  have hmain := trans2_append (trans2_ok (show chunkOk ("[" : String).data = true by decide))
    (trans2_append hc (trans2_ok (show chunkOk ("]" : String).data = true by decide)))
  unfold arrJson
  simp only [String.data_append, List.append_assoc] at hmain ⊢
  exact hmain

theorem dump_trans2 {d : RunData} {run : List (List (String × Cell))}
    {reads : List (List (List (String × Cell)))}
    (hr : getRunSummary d = .ok run)
    (hj : getReadsJson d (List.range d.size) = .ok reads) :
    Trans2 (dumpJson cellJson run reads).data (dumpJson cellJsonNull run reads).data := by
  have hkeys := (formatLevelRows_shape (runRows d) run hr).2.1
  have hcells := formatLevelRows_cells hr (runRows_labels_ok d)
  have hrunArr : Trans2 (arrJson (run.map (recordJson cellJson))).data
      (arrJson (run.map (recordJson cellJsonNull))).data := by
    apply trans2_arrJson
    intro r hrm
    apply trans2_record
    · intro p hp
      have hk := key_of_mem (hkeys r hrm) hp
      apply keys_ok
      rcases List.mem_cons.mp hk with hk | hk
      · simp [hk]
      · simp only [List.map_append, List.mem_cons, List.mem_append]
        exact Or.inr (Or.inl hk)
    · intro p hp
      exact hcells r hrm p hp
  have hreadsArr : Trans2
      (arrJson (reads.map (fun r => arrJson (r.map (recordJson cellJson))))).data
      (arrJson (reads.map (fun r => arrJson (r.map (recordJson cellJsonNull))))).data := by
    apply trans2_arrJson
    intro rread hrm
    obtain ⟨i, hi, hir⟩ := (getReadsJson_shape d (List.range d.size) reads hj).2 rread hrm
    have hi' : i < d.size := List.mem_range.mp hi
    rw [getReadSummary, if_neg (by omega), if_neg (by omega)] at hir
    have hlkeys := (formatLaneRows_shape (d.atRead (i : ℤ).toNat)
      (List.range d.laneCount) rread hir).2
    have hlcells := formatLaneRows_cells hir
    apply trans2_arrJson
    intro r2 hr2
    apply trans2_record
    · intro p hp
      have hk := key_of_mem (hlkeys r2 hr2) hp
      apply keys_ok
      simp only [List.map_append, List.mem_cons, List.mem_append]
      exact Or.inr (Or.inr hk)
    · exact hlcells r2 hr2
  have hmain := trans2_append
    (trans2_ok (show chunkOk ("\x7b\"runSummary\": " : String).data = true by decide))
    (trans2_append hrunArr (trans2_append
      (trans2_ok (show chunkOk (", \"reads\": " : String).data = true by decide))
      (trans2_append hreadsArr
        (trans2_ok (show chunkOk ("\x7d" : String).data = true by decide)))))
  unfold dumpJson
  simp only [String.data_append, List.append_assoc] at hmain ⊢
  exact hmain

/-- Claim C4: the replaced JSON output of `get_table_json` coincides with
the serialization that emits every not-a-number cell directly as JSON
`null`, and the output never contains the substring `NaN`. -/
theorem claim_C4_json_nan_null (d : RunData) (h : allOk d = true) :
    getTableJson d = getTableJsonNull d
    ∧ ∀ s, getTableJson d = .ok s → hasNaN s.data = false := by
  rcases hr : getRunSummary d with err | run
  · rw [allOk, hr] at h
    simp at h
  · rcases hj : getReadsJson d (List.range d.size) with err | reads
    · rw [allOk, hr, hj] at h
      simp at h
    · have ht := dump_trans2 hr hj
      obtain ⟨heq, hclean⟩ := trans2_conclude ht
      have hout : getTableJson d
          = .ok (String.mk (repl (dumpJson cellJson run reads).data)) := by
        rw [getTableJson, hr, hj]
      have hout2 : getTableJsonNull d = .ok (dumpJson cellJsonNull run reads) := by
        rw [getTableJsonNull, hr, hj]
      constructor
      · rw [hout, hout2, heq]
      · intro s hs
        rw [hout] at hs
        simp only [Except.ok.injEq] at hs
        subst hs
        show hasNaN (repl (dumpJson cellJson run reads).data) = false
        rw [heq]
        exact hclean

theorem claim_C4_json_nan_null_witness :
    allOk sampleRunN = true
    ∧ getTableJson sampleRunN = getTableJsonNull sampleRunN :=
  ⟨by decide, (claim_C4_json_nan_null sampleRunN (by decide)).1⟩

end
